import Mathlib

/-!
Verification development for the checkend-go delivery core.

Shallow embedding of the Go sources:
  * `filters/ignore.go`   — `IgnoreFilter` and `SanitizeFilter`
  * `notice.go`           — `Notice`, `Payload`, `Notice.ToPayload`, `Client.Send`
  * `notice_builder.go`   — the context-assembly step of `NoticeBuilder.Build`
  * the worker file       — `Worker.Push`, `Worker.sendWithRetry`

Go `interface{}` values that flow through the sanitizer are modelled by the
mutual inductive `Value` below: JSON-like data (null, bool, integer, string,
sequence, string-keyed map) plus `vother`, an opaque value carrying the string
that Go's `valueToString` would produce for it.  Go `map[string]interface{}`
is modelled as an association list (`ObjList`); key uniqueness, which Go maps
guarantee, appears as an explicit hypothesis where a proof needs it.  String
lengths are counted in characters where Go counts bytes; none of the claims
checked here depends on the difference.
-/

namespace Checkend

mutual

/-- A JSON-like runtime value (Go `interface{}` as seen by the sanitizer). -/
inductive Value where
  | vnull : Value
  | vbool : Bool → Value
  | vint : Int → Value
  | vstr : String → Value
  /-- An opaque non-JSON value; the field is the string `valueToString` yields
      for it (`String()` result, or `"[UNKNOWN TYPE]"`). -/
  | vother : String → Value
  | varr : ValueList → Value
  | vobj : ObjList → Value
  deriving DecidableEq

/-- A Go `[]interface{}`. -/
inductive ValueList where
  | nil : ValueList
  | cons : Value → ValueList → ValueList
  deriving DecidableEq

/-- A Go `map[string]interface{}`, as an association list. -/
inductive ObjList where
  | nil : ObjList
  | cons : String → Value → ObjList → ObjList
  deriving DecidableEq

end

namespace ObjList

/-- Go map read `m[k]` (first binding wins; Go maps have unique keys). -/
def lookup (k : String) : ObjList → Option Value
  | .nil => none
  | .cons k' v rest => if k' = k then some v else lookup k rest

/-- The keys of a map, in binding order. -/
def keys : ObjList → List String
  | .nil => []
  | .cons k _ rest => k :: keys rest

/-- Go map write `m[k] = v`: overwrite an existing binding, else append. -/
def set (m : ObjList) (k : String) (v : Value) : ObjList :=
  match m with
  | .nil => .cons k v .nil
  | .cons k' v' rest => if k' = k then .cons k' v rest else .cons k' v' (set rest k v)

end ObjList

/-- Go strings.Contains: `sub` occurs as a contiguous substring of `s`. -/
def goContains (s sub : String) : Bool :=
  s.toList.tails.any (fun suffix => sub.toList.isPrefixOf suffix)

/-- Go strings.HasSuffix. -/
def goHasSuffix (s suffix : String) : Bool :=
  suffix.toList.isSuffixOf s.toList

/-- Go strings.TrimPrefix specialised to the "*" marker, as used by
`ShouldIgnore` to strip the pointer prefix from a reflected type name. -/
def goTrimStar (s : String) : String :=
  match s.toList with
  | '*' :: rest => ⟨rest⟩
  | _ => s

/-- Go strings.ToLower, on ASCII as used by the filter keys. -/
def goToLower (s : String) : String :=
  ⟨s.toList.map Char.toLower⟩

/-! ## SanitizeFilter (filters/ignore.go) -/

/-- Constant `FilteredValue` from filters/ignore.go. -/
def FilteredValue : String := "[FILTERED]"

/-- Constant `maxDepth` from filters/ignore.go. -/
def maxDepth : Nat := 10

/-- Constant `maxStringLen` from filters/ignore.go. -/
def maxStringLen : Nat := 10000

/-- The state of a `SanitizeFilter`: the (lowercased) configured filter keys. -/
structure SanitizeFilter where
  filterKeys : List String
  deriving DecidableEq

/-- Constructor `NewSanitizeFilter`: lowercases the configured keys. -/
def NewSanitizeFilter (filterKeys : List String) : SanitizeFilter :=
  ⟨filterKeys.map goToLower⟩

namespace SanitizeFilter

/-- Method `SanitizeFilter.shouldFilter`: case-insensitive substring match of
the key against each configured filter key. -/
def shouldFilter (f : SanitizeFilter) (key : String) : Bool :=
  let keyLower := goToLower key
  f.filterKeys.any (fun filterKey => goContains keyLower filterKey)

/-- Method `SanitizeFilter.truncateString`. -/
def truncateString (_f : SanitizeFilter) (s : String) : String :=
  if s.length > maxStringLen then ⟨s.toList.take maxStringLen⟩ ++ "..." else s

mutual

/-- Method `SanitizeFilter.filterMap`. -/
def filterMap (f : SanitizeFilter) (data : ObjList) (depth : Nat) : ObjList :=
  if depth > maxDepth then
    .cons "_truncated" (.vstr "[MAX DEPTH EXCEEDED]") .nil
  else
    filterEntries f data depth

/-- The `for key, value := range data` body of `filterMap`. -/
def filterEntries (f : SanitizeFilter) (data : ObjList) (depth : Nat) : ObjList :=
  match data with
  | .nil => .nil
  | .cons key value rest =>
    if f.shouldFilter key then
      .cons key (.vstr FilteredValue) (filterEntries f rest depth)
    else
      .cons key (filterValue f value (depth + 1)) (filterEntries f rest depth)

/-- Method `SanitizeFilter.filterValue`. -/
def filterValue (f : SanitizeFilter) (value : Value) (depth : Nat) : Value :=
  if depth > maxDepth then
    .vstr "[MAX DEPTH EXCEEDED]"
  else
    match value with
    | .vobj m => .vobj (filterMap f m depth)
    | .varr l => .varr (filterSlice f l depth)
    | .vstr s => .vstr (f.truncateString s)
    | .vnull => .vnull
    | .vbool b => .vbool b
    | .vint n => .vint n
    | .vother s => .vstr (f.truncateString s)

/-- Method `SanitizeFilter.filterSlice`. -/
def filterSlice (f : SanitizeFilter) (data : ValueList) (depth : Nat) : ValueList :=
  match data with
  | .nil => .nil
  | .cons item rest => .cons (filterValue f item (depth + 1)) (filterSlice f rest depth)

end

/-- Method `SanitizeFilter.Filter`: Go takes and returns a possibly-nil map;
`none` models the nil map. -/
def Filter (f : SanitizeFilter) (data : Option ObjList) : Option ObjList :=
  match data with
  | none => none
  | some d => some (filterMap f d 0)

end SanitizeFilter

/-! ## Occurrence and depth measures on values

Used to state the redaction-completeness and depth-termination claims. -/

mutual

/-- Value `w` occurs inside `v` (reflexively, anywhere in the tree). -/
def occursIn (w v : Value) : Bool :=
  (w == v) ||
  (match v with
   | .varr l => occursInList w l
   | .vobj m => occursInObj w m
   | _ => false)

/-- Value `w` occurs inside some element of the sequence. -/
def occursInList (w : Value) : ValueList → Bool
  | .nil => false
  | .cons v rest => occursIn w v || occursInList w rest

/-- Value `w` occurs inside some bound value of the map. -/
def occursInObj (w : Value) : ObjList → Bool
  | .nil => false
  | .cons _ v rest => occursIn w v || occursInObj w rest

end

/-- Value `w` is a proper descendant of `v`: it occurs inside one of the
children of `v` (so `v` itself is excluded unless it reappears deeper). -/
def properDescendant (w v : Value) : Bool :=
  match v with
  | .varr l => occursInList w l
  | .vobj m => occursInObj w m
  | _ => false

mutual

/-- Nesting depth of a value: scalars are 0, a map or sequence adds one
level above its deepest child. -/
def valueDepth : Value → Nat
  | .vnull => 0
  | .vbool _ => 0
  | .vint _ => 0
  | .vstr _ => 0
  | .vother _ => 0
  | .varr l => 1 + listDepth l
  | .vobj m => 1 + objDepth m

/-- Depth of the deepest element of a sequence. -/
def listDepth : ValueList → Nat
  | .nil => 0
  | .cons v rest => max (valueDepth v) (listDepth rest)

/-- Depth of the deepest bound value of a map. -/
def objDepth : ObjList → Nat
  | .nil => 0
  | .cons _ v rest => max (valueDepth v) (objDepth rest)

end

/-! ## Regular expressions (the fragment used by ignore patterns)

Go's `IgnoreFilter.matchesString` compiles string patterns with the `regexp`
package and tests them with `MatchString` (case-sensitive, unanchored
search).  The embedding below implements RE2 semantics for the fragment the
configured patterns use — literal characters, `.`, and `*` applied to a
literal or to `.`.  `regexp.Compile` never fails on this fragment, so the
silently-skipped invalid-pattern case of the Go code does not arise. -/

/-- One token of a compiled pattern. -/
inductive RTok where
  | lit : Char → RTok
  | dot : RTok
  | starLit : Char → RTok
  | starDot : RTok
  deriving DecidableEq

/-- Compile a pattern string of the supported fragment into tokens. -/
def parseRegex : List Char → List RTok
  | [] => []
  | c :: '*' :: rest => (if c = '.' then .starDot else .starLit c) :: parseRegex rest
  | c :: rest => (if c = '.' then .dot else .lit c) :: parseRegex rest

/-- All suffixes of `s` reachable by consuming a leading run of `c`
(candidate continuation points for `c*`), shortest consumption first. -/
def starDrops (c : Char) : List Char → List (List Char)
  | [] => [[]]
  | x :: xs => (x :: xs) :: (if c = x then starDrops c xs else [])

/-- Anchored-at-start match of a token list against a character list.
A starred token matches any number of its atoms (RE2 semantics, expressed
by enumerating the candidate continuation points). -/
def matchHere : List RTok → List Char → Bool
  | [], _ => true
  | .lit _ :: _, [] => false
  | .lit c :: ts, x :: xs => c == x && matchHere ts xs
  | .dot :: _, [] => false
  | .dot :: ts, _ :: xs => matchHere ts xs
  | .starLit c :: ts, s => (starDrops c s).any (fun s' => matchHere ts s')
  | .starDot :: ts, s => s.tails.any (fun s' => matchHere ts s')

/-- Go regexp MatchString: unanchored search over all suffixes. -/
def goRegexMatch (pattern s : String) : Bool :=
  s.toList.tails.any (fun s' => matchHere (parseRegex pattern.toList) s')

/-! ## IgnoreFilter (filters/ignore.go) -/

/-- A Go reflect.Type, identified by its reflected name string
(for example "*filters.customError"). -/
structure GoType where
  name : String
  deriving DecidableEq

/-- One configured ignore pattern: the three runtime cases of the
`interface{}` pattern list (string, reflect.Type, error instance — the
latter two both reduce to type comparison). -/
inductive IgnorePattern where
  | str : String → IgnorePattern
  | typ : GoType → IgnorePattern
  | errInstance : GoType → IgnorePattern

namespace IgnoreFilter

/-- Method `IgnoreFilter.matchesString`: exact, dotted-suffix, bare-suffix,
then regex match. -/
def matchesString (errName pattern : String) : Bool :=
  (errName == pattern)
  || goHasSuffix errName ("." ++ pattern)
  || goHasSuffix errName pattern
  || goRegexMatch pattern errName

/-- Method `IgnoreFilter.ShouldIgnore`.  `err` is the reflected type of the
error, `none` modelling a nil error.  `assignableTo` is the reflection
oracle for `errType.AssignableTo(p)`. -/
def ShouldIgnore (assignableTo : GoType → GoType → Bool)
    (patterns : List IgnorePattern) (err : Option GoType) : Bool :=
  match err with
  | none => true
  | some errType =>
    let errName := goTrimStar errType.name
    patterns.any fun p =>
      match p with
      | .str s => matchesString errName s
      | .typ t => errType == t || assignableTo errType t
      | .errInstance t => errType == t

end IgnoreFilter

/-! ## Notice and Payload (notice.go)

Timestamps: Go's time.Time carries nanosecond precision, and `ToPayload`
renders it with `OccurredAt.UTC().Format(time.RFC3339)`, a format with no
fractional-second component.  `GoTime` models the UTC instant as whole
seconds plus a nanosecond remainder; the RFC3339 rendering, which is
injective on whole seconds and drops the nanoseconds, is modelled by
carrying only the seconds into the payload. -/

/-- A Go time.Time instant (UTC): whole seconds and the sub-second
nanosecond remainder. -/
structure GoTime where
  sec : Nat
  nsec : Nat
  deriving DecidableEq

/-- Struct `NotifierInfo`. -/
structure NotifierInfo where
  name : String
  version : String
  language : String
  languageVersion : String
  deriving DecidableEq

/-- Struct `ServerInfo`. -/
structure ServerInfo where
  appName : String
  revision : String
  hostname : String
  deriving DecidableEq

/-- Struct `Notice`.  The nil and empty map are not distinguished:
`ToPayload` observes maps only through iteration and `len`. -/
structure Notice where
  errorClass : String
  message : String
  backtrace : List String
  fingerprint : String
  tags : List String
  context : ObjList
  request : ObjList
  user : ObjList
  environment : String
  occurredAt : GoTime
  notifier : NotifierInfo
  appName : String
  revision : String
  hostname : String
  deriving DecidableEq

/-- Struct `ErrorPayload` (`class_` for the Go field `Class`);
`occurredAt` is the RFC3339-rendered instant, second precision. -/
structure ErrorPayload where
  class_ : String
  message : String
  backtrace : List String
  fingerprint : String
  tags : List String
  occurredAt : Nat
  deriving DecidableEq

/-- Struct `Payload`; `none` models an omitted optional block. -/
structure Payload where
  error : ErrorPayload
  context : ObjList
  request : Option ObjList
  user : Option ObjList
  notifier : NotifierInfo
  server : Option ServerInfo
  deriving DecidableEq

/-- The context-map assembly of `ToPayload`: a fresh map, the write
`ctx["environment"] = n.Environment`, then one write per entry of
`n.Context`. -/
def mergeContext (environment : String) (context : ObjList) : ObjList :=
  let seed := ObjList.set .nil "environment" (.vstr environment)
  go seed context
where
  /-- The `for k, v := range n.Context` loop. -/
  go (acc : ObjList) : ObjList → ObjList
    | .nil => acc
    | .cons k v rest => go (acc.set k v) rest

/-- Method `Notice.ToPayload`. -/
def Notice.ToPayload (n : Notice) : Payload :=
  { error :=
      { class_ := n.errorClass
        message := n.message
        backtrace := n.backtrace
        fingerprint := n.fingerprint
        tags := n.tags
        occurredAt := n.occurredAt.sec }
    context := mergeContext n.environment n.context
    request := if n.request ≠ .nil then some n.request else none
    user := if n.user ≠ .nil then some n.user else none
    notifier := n.notifier
    server :=
      if n.appName ≠ "" ∨ n.revision ≠ "" ∨ n.hostname ≠ "" then
        some ⟨n.appName, n.revision, n.hostname⟩
      else none }

/-- Concatenation of association lists (proof tool for reasoning about
`mergeContext`; not a Go operation). -/
def ObjList.append : ObjList → ObjList → ObjList
  | .nil, b => b
  | .cons k v rest, b => .cons k v (ObjList.append rest b)

/-- Removal of the (unique) binding of `k`, proof tool for inverting
`mergeContext`. -/
def ObjList.eraseKey (k : String) : ObjList → ObjList
  | .nil => .nil
  | .cons k' v rest => if k' = k then rest else .cons k' v (ObjList.eraseKey k rest)

/-- A decoder for `Notice.ToPayload`, used to state what the projection
keeps: on payloads produced from a notice whose context map does not bind
the reserved key, it reconstructs the notice up to the sub-second part of
the timestamp, which the RFC3339 rendering drops. -/
def fromPayload (p : Payload) : Notice :=
  { errorClass := p.error.class_
    message := p.error.message
    backtrace := p.error.backtrace
    fingerprint := p.error.fingerprint
    tags := p.error.tags
    context := p.context.eraseKey "environment"
    request := p.request.getD .nil
    user := p.user.getD .nil
    environment :=
      match p.context.lookup "environment" with
      | some (.vstr e) => e
      | _ => ""
    occurredAt := ⟨p.error.occurredAt, 0⟩
    notifier := p.notifier
    appName := (p.server.getD ⟨"", "", ""⟩).appName
    revision := (p.server.getD ⟨"", "", ""⟩).revision
    hostname := (p.server.getD ⟨"", "", ""⟩).hostname }

/-- The notice with the sub-second part of its timestamp erased: exactly the
information `ToPayload` keeps of the occurrence time. -/
def Notice.truncSec (n : Notice) : Notice :=
  { n with occurredAt := ⟨n.occurredAt.sec, 0⟩ }

/-! ## NoticeBuilder context assembly (notice_builder.go)

Only the context-assembly fragment of `NoticeBuilder.Build` is embedded:
`sanitizedContext := b.sanitizeFilter.Filter(context)` followed, when the
`SendEnvironment` flag is set, by the Go map write
`sanitizedContext["env"] = b.getEnvironmentVars()`.  Writing to a nil Go map
panics at runtime; `Except.error` models that panic.  `envSnapshot` stands
for the filtered environment-variable snapshot. -/

/-- The context-assembly step of `NoticeBuilder.Build`. -/
def buildSanitizedContext (f : SanitizeFilter) (sendEnvironment : Bool)
    (context : Option ObjList) (envSnapshot : Value) :
    Except String (Option ObjList) :=
  let sanitizedContext := f.Filter context
  if sendEnvironment then
    match sanitizedContext with
    | none => .error "assignment to entry in nil map"
    | some m => .ok (some (m.set "env" envSnapshot))
  else
    .ok sanitizedContext

/-! ## Delivery client (notice.go, `Client.Send`)

The HTTP exchange and JSON codec are external effects; `SendWorld` packages
their outcomes for one call.  The control flow of `Send` over those outcomes
is embedded exactly: every failure exit returns `none` (after logging, which
has no observable effect on the return value). -/

/-- Struct `APIResponse`. -/
structure APIResponse where
  id : Int
  problemId : Int
  deriving DecidableEq

/-- Outcomes of the effectful steps of one `Client.Send` call:
`marshalResult` is `json.Marshal(payload)`; `newRequestOk` is
`http.NewRequest` succeeding; `httpResult` is `none` for a network error and
otherwise the status code with the result of reading the body
(`none` when `io.ReadAll` fails); `parseResponse` is `json.Unmarshal` into
`APIResponse`. -/
structure SendWorld where
  marshalResult : Option String
  newRequestOk : Bool
  httpResult : Option (Nat × Option String)
  parseResponse : String → Option APIResponse

/-- Method `Client.Send`: `apiKey` is the configured API key. -/
def Client.Send (apiKey : String) (w : SendWorld) : Option APIResponse :=
  if apiKey = "" then none
  else
    match w.marshalResult with
    | none => none
    | some _data =>
      if ¬ w.newRequestOk then none
      else
        match w.httpResult with
        | none => none
        | some (status, bodyRead) =>
          match bodyRead with
          | none => none
          | some body =>
            if status ≠ 201 then none
            else w.parseResponse body

/-! ## Async worker (`Worker.Push`, `Worker.sendWithRetry`)

`Push` is modelled against a snapshot of the worker's shared state: the
running flag (read under the mutex) and the buffered channel, a queue whose
occupancy is below the configured capacity exactly when a non-blocking send
succeeds.  The sequential model corresponds to the claim's premise that the
queue is not concurrently drained. -/

/-- The worker state `Push` observes. -/
structure WorkerState where
  running : Bool
  capacity : Nat
  queue : List Notice
  deriving DecidableEq

/-- Method `Worker.Push`: non-blocking enqueue; returns the result and the
updated state. -/
def WorkerState.Push (w : WorkerState) (notice : Notice) : Bool × WorkerState :=
  if ¬ w.running then (false, w)
  else if w.queue.length < w.capacity then
    (true, { w with queue := w.queue ++ [notice] })
  else (false, w)

/-- Sequential composition of `Push` calls, first result first. -/
def pushAll (w : WorkerState) : List Notice → List Bool × WorkerState
  | [] => ([], w)
  | n :: rest =>
    let (ok, w') := w.Push n
    let (oks, w'') := pushAll w' rest
    (ok :: oks, w'')

/-- Observable behaviour of one `sendWithRetry` call: the attempt indices at
which `client.Send` was invoked, the sleeps performed between attempts (in
milliseconds), and the first non-nil response, if any. -/
structure RetryTrace where
  attempts : List Nat
  delays : List Nat
  result : Option APIResponse
  deriving DecidableEq

/-- The `for attempt := 0; attempt < maxRetries; attempt++` loop of
`Worker.sendWithRetry`; `remaining` counts the iterations still allowed,
and `send k` is the response of the `client.Send` call on attempt `k`. -/
def retryAux (send : Nat → Option APIResponse) : Nat → Nat → RetryTrace
  | 0, _ => ⟨[], [], none⟩
  | remaining + 1, attempt =>
    match send attempt with
    | some r => ⟨[attempt], [], some r⟩
    | none =>
      match remaining with
      | 0 => ⟨[attempt], [], none⟩
      | r + 1 =>
        let rest := retryAux send (r + 1) (attempt + 1)
        ⟨attempt :: rest.attempts, (2 ^ attempt * 100) :: rest.delays, rest.result⟩

/-- Method `Worker.sendWithRetry` (the worker's run loop calls it with
`maxRetries = 3`). -/
def Worker.sendWithRetry (send : Nat → Option APIResponse) (maxRetries : Nat) :
    RetryTrace :=
  retryAux send maxRetries 0

/-! ## Concrete fixtures used by witnesses and counterexamples -/

/-- A chain of `n + 1` nested single-entry maps (innermost one empty). -/
def nestObj : Nat → Value
  | 0 => .vobj .nil
  | n + 1 => .vobj (.cons "k" (nestObj n) .nil)

/-- A concrete notice used in witnesses. -/
def sampleNotice : Notice :=
  { errorClass := "pkg.Err", message := "boom", backtrace := [], fingerprint := "",
    tags := [], context := .nil, request := .nil, user := .nil,
    environment := "production", occurredAt := ⟨0, 0⟩,
    notifier := ⟨"checkend-go", "1.0.0", "go", "go1.22.0"⟩,
    appName := "", revision := "", hostname := "" }

/-- A notice whose context map itself binds the reserved key "environment". -/
def cexNoticeA : Notice :=
  { sampleNotice with context := .cons "environment" (.vstr "staging") .nil }

/-- Like `cexNoticeA` but with a different environment name. -/
def cexNoticeB : Notice :=
  { cexNoticeA with environment := "other" }

/-- A notice whose timestamp carries a nanosecond remainder. -/
def cexNoticeC : Notice :=
  { sampleNotice with occurredAt := ⟨5, 1⟩ }

/-- Like `cexNoticeC` but with a different nanosecond remainder. -/
def cexNoticeD : Notice :=
  { sampleNotice with occurredAt := ⟨5, 2⟩ }

/-! # Theorems

Helper lemmas come first; each claim's theorem carries the claim id in its
doc comment.  `ObjList`, `ValueList` and `Value` are mutually inductive, so
inductive proofs over them are written as recursive theorems (`cases` plus a
recursive call) or inside `mutual` blocks. -/

theorem truncateString_idem (f : SanitizeFilter) (s : String) :
    f.truncateString (f.truncateString s) = f.truncateString s := by
  unfold SanitizeFilter.truncateString
  by_cases h : s.length > maxStringLen
  · have hslen : s.toList.length = s.length := rfl
    have htlen : ((⟨s.toList.take maxStringLen⟩ ++ "..." : String)).length
        = maxStringLen + 3 := by
      show (s.toList.take maxStringLen ++ ("..." : String).data).length = maxStringLen + 3
      rw [List.length_append, List.length_take, hslen, Nat.min_eq_left (by omega)]
      rfl
    have hgt : ((⟨s.toList.take maxStringLen⟩ ++ "..." : String)).length > maxStringLen := by
      rw [htlen]; omega
    rw [if_pos h, if_pos hgt]
    have hl : (s.toList.take maxStringLen).length = maxStringLen := by
      rw [List.length_take, hslen, Nat.min_eq_left (by omega)]
    have htake : ((⟨s.toList.take maxStringLen⟩ ++ "..." : String)).toList.take maxStringLen
        = s.toList.take maxStringLen := by
      show (s.toList.take maxStringLen ++ ("..." : String).data).take maxStringLen
          = s.toList.take maxStringLen
      rw [List.take_append_eq_append_take, List.take_of_length_le (le_of_eq hl), hl,
        Nat.sub_self]
      simp
    rw [htake]
  · rw [if_neg h, if_neg h]

mutual

theorem filterValue_idem (f : SanitizeFilter) (v : Value) (d : Nat) :
    f.filterValue (f.filterValue v d) d = f.filterValue v d := by
  cases v with
  | vnull => by_cases hd : d > maxDepth <;> simp [SanitizeFilter.filterValue, hd]
  | vbool b => by_cases hd : d > maxDepth <;> simp [SanitizeFilter.filterValue, hd]
  | vint n => by_cases hd : d > maxDepth <;> simp [SanitizeFilter.filterValue, hd]
  | vstr s =>
    by_cases hd : d > maxDepth <;>
      simp [SanitizeFilter.filterValue, hd, truncateString_idem f s]
  | vother s =>
    by_cases hd : d > maxDepth <;>
      simp [SanitizeFilter.filterValue, hd, truncateString_idem f s]
  | varr l =>
    by_cases hd : d > maxDepth <;>
      simp [SanitizeFilter.filterValue, hd, filterSlice_idem f l d]
  | vobj m =>
    by_cases hd : d > maxDepth <;>
      simp [SanitizeFilter.filterValue, SanitizeFilter.filterMap, hd,
        filterEntries_idem f m d]

theorem filterEntries_idem (f : SanitizeFilter) (m : ObjList) (d : Nat) :
    SanitizeFilter.filterEntries f (SanitizeFilter.filterEntries f m d) d
      = SanitizeFilter.filterEntries f m d := by
  cases m with
  | nil => simp [SanitizeFilter.filterEntries]
  | cons k v rest =>
    by_cases hk : f.shouldFilter k
    · simp [SanitizeFilter.filterEntries, hk, filterEntries_idem f rest d]
    · simp [SanitizeFilter.filterEntries, hk, filterEntries_idem f rest d,
        filterValue_idem f v (d + 1)]

theorem filterSlice_idem (f : SanitizeFilter) (l : ValueList) (d : Nat) :
    SanitizeFilter.filterSlice f (SanitizeFilter.filterSlice f l d) d
      = SanitizeFilter.filterSlice f l d := by
  cases l with
  | nil => simp [SanitizeFilter.filterSlice]
  | cons item rest =>
    simp [SanitizeFilter.filterSlice, filterSlice_idem f rest d,
      filterValue_idem f item (d + 1)]

end

/-- C7: `SanitizeFilter.Filter` is idempotent — filtering an already-filtered
map (including the nil map) produces an identical map. -/
theorem sanitize_filter_idempotent (f : SanitizeFilter) (data : Option ObjList) :
    f.Filter (f.Filter data) = f.Filter data := by
  cases data with
  | none => rfl
  | some m =>
    have h0 : ¬ (0 > maxDepth) := by decide
    simp [SanitizeFilter.Filter, SanitizeFilter.filterMap, h0]
    exact filterEntries_idem f m 0

theorem filterEntries_matched_lookup (f : SanitizeFilter) (m : ObjList) (d : Nat)
    (k : String) (hk : f.shouldFilter k = true) :
    (SanitizeFilter.filterEntries f m d).lookup k
      = (m.lookup k).map (fun _ => Value.vstr FilteredValue) := by
  cases m with
  | nil => simp [SanitizeFilter.filterEntries, ObjList.lookup]
  | cons k' v rest =>
    have ih := filterEntries_matched_lookup f rest d k hk
    by_cases he : k' = k
    · subst he
      have hk' : f.shouldFilter k' = true := hk
      simp [SanitizeFilter.filterEntries, hk', ObjList.lookup]
    · by_cases hk' : f.shouldFilter k' <;>
        simp [SanitizeFilter.filterEntries, hk', ObjList.lookup, he, ih]

/-- C1 (amended): at every recursion level of depth at most `maxDepth`, a key
whose lowercase form contains a configured filter substring keeps its key but
has its value replaced by the redaction marker, and the output at that key
contains nothing except the marker itself — the original value is never
traversed through that key.  (The original claim's stronger reading — that no
descendant of the value appears anywhere in the output — fails when the same
value also sits under a non-matching key; see the counterexample.) -/
theorem sanitize_matched_key_redacted (f : SanitizeFilter) (m : ObjList) (d : Nat)
    (k : String) (hd : d ≤ maxDepth) (hk : f.shouldFilter k = true) :
    (f.filterMap m d).lookup k = (m.lookup k).map (fun _ => Value.vstr FilteredValue) ∧
    (∀ v w : Value, (f.filterMap m d).lookup k = some v →
      occursIn w v = true → w = .vstr FilteredValue) := by
  have hmap : f.filterMap m d = SanitizeFilter.filterEntries f m d := by
    simp [SanitizeFilter.filterMap, Nat.not_lt.mpr hd]
  have hlk := filterEntries_matched_lookup f m d k hk
  refine ⟨by rw [hmap]; exact hlk, ?_⟩
  intro v w hv hocc
  rw [hmap, hlk] at hv
  rcases hmk : m.lookup k with _ | v0 <;> rw [hmk] at hv
  · simp at hv
  · simp at hv
    subst hv
    simpa [occursIn] using hocc

/-- Witness for C1: a concrete matched key is redacted at the top level. -/
theorem sanitize_matched_key_redacted_witness :
    ((NewSanitizeFilter ["password"]).filterMap
        (.cons "password" (.vstr "x") .nil) 0).lookup "password"
      = some (.vstr FilteredValue) := by
  have h := sanitize_matched_key_redacted (NewSanitizeFilter ["password"])
    (.cons "password" (.vstr "x") .nil) 0 "password" (by decide) (by decide)
  rw [h.1]
  rfl

/-- Counterexample for C1 as stated: the map binds the same value under the
matched key "token" and the non-matching key "x"; the descendant string "c"
of the value at "token" still appears in the filtered output (under "x"). -/
theorem sanitize_matched_key_descendant_leak_cex :
    (NewSanitizeFilter ["token"]).shouldFilter "token" = true ∧
    (ObjList.cons "token" (.vobj (.cons "child" (.vstr "c") .nil))
        (.cons "x" (.vobj (.cons "child" (.vstr "c") .nil)) .nil)).lookup "token"
      = some (.vobj (.cons "child" (.vstr "c") .nil)) ∧
    properDescendant (.vstr "c") (.vobj (.cons "child" (.vstr "c") .nil)) = true ∧
    occursInObj (.vstr "c")
      ((NewSanitizeFilter ["token"]).filterMap
        (.cons "token" (.vobj (.cons "child" (.vstr "c") .nil))
          (.cons "x" (.vobj (.cons "child" (.vstr "c") .nil)) .nil)) 0) = true := by
  refine ⟨by decide, by decide, ?_, ?_⟩
  · simp [properDescendant, occursInObj, occursIn]
  · have hsf1 : (NewSanitizeFilter ["token"]).shouldFilter "token" = true := by decide
    have hsf2 : (NewSanitizeFilter ["token"]).shouldFilter "x" = false := by decide
    have hsf3 : (NewSanitizeFilter ["token"]).shouldFilter "child" = false := by decide
    have htr : (NewSanitizeFilter ["token"]).truncateString "c" = "c" := by decide
    norm_num [SanitizeFilter.filterMap, SanitizeFilter.filterEntries,
      SanitizeFilter.filterValue, hsf1, hsf2, hsf3, htr, maxDepth, FilteredValue,
      occursInObj, occursIn, occursInList]


mutual

theorem filterValue_depth_le (f : SanitizeFilter) (v : Value) (d : Nat) :
    valueDepth (f.filterValue v d) ≤ maxDepth + 2 - d := by
  cases v with
  | vnull => by_cases hd : d > maxDepth <;> simp [SanitizeFilter.filterValue, hd, valueDepth]
  | vbool b => by_cases hd : d > maxDepth <;> simp [SanitizeFilter.filterValue, hd, valueDepth]
  | vint n => by_cases hd : d > maxDepth <;> simp [SanitizeFilter.filterValue, hd, valueDepth]
  | vstr s => by_cases hd : d > maxDepth <;> simp [SanitizeFilter.filterValue, hd, valueDepth]
  | vother s => by_cases hd : d > maxDepth <;> simp [SanitizeFilter.filterValue, hd, valueDepth]
  | varr l =>
    by_cases hd : d > maxDepth
    · simp [SanitizeFilter.filterValue, hd, valueDepth]
    · have h := filterSlice_depth_le f l d
      have hdle : d ≤ maxDepth := Nat.not_lt.mp hd
      simp only [SanitizeFilter.filterValue, if_neg hd, valueDepth]
      omega
  | vobj m =>
    by_cases hd : d > maxDepth
    · simp [SanitizeFilter.filterValue, hd, valueDepth]
    · have h := filterEntries_depth_le f m d
      have hdle : d ≤ maxDepth := Nat.not_lt.mp hd
      simp only [SanitizeFilter.filterValue, if_neg hd, SanitizeFilter.filterMap, valueDepth]
      omega

theorem filterEntries_depth_le (f : SanitizeFilter) (m : ObjList) (d : Nat) :
    objDepth (SanitizeFilter.filterEntries f m d) ≤ maxDepth + 1 - d := by
  cases m with
  | nil => simp [SanitizeFilter.filterEntries, objDepth]
  | cons k v rest =>
    have ih := filterEntries_depth_le f rest d
    by_cases hk : f.shouldFilter k
    · simp only [SanitizeFilter.filterEntries, if_pos hk, objDepth, valueDepth]
      omega
    · have hv := filterValue_depth_le f v (d + 1)
      simp only [SanitizeFilter.filterEntries, if_neg hk, objDepth]
      omega

theorem filterSlice_depth_le (f : SanitizeFilter) (l : ValueList) (d : Nat) :
    listDepth (SanitizeFilter.filterSlice f l d) ≤ maxDepth + 1 - d := by
  cases l with
  | nil => simp [SanitizeFilter.filterSlice, listDepth]
  | cons item rest =>
    have ih := filterSlice_depth_le f rest d
    have hv := filterValue_depth_le f item (d + 1)
    simp only [SanitizeFilter.filterSlice, listDepth]
    omega

end

/-- C8 (amended): `Filter` terminates on every input (it is a total function
of this development), the depth of any output map is bounded by
`maxDepth + 1`, and any value reached past the max depth is replaced by the
string sentinel — for maps, sequences and scalars alike.  (The original
claim's single-entry "_truncated" map sentinel is the unreachable
`filterMap` branch; see the counterexample.) -/
theorem sanitize_depth_bounded (f : SanitizeFilter) (m out : ObjList) (v : Value)
    (d : Nat) (hout : f.Filter (some m) = some out) (hd : d > maxDepth) :
    objDepth out ≤ maxDepth + 1 ∧
    f.filterValue v d = .vstr "[MAX DEPTH EXCEEDED]" := by
  constructor
  · have hfe : out = SanitizeFilter.filterEntries f m 0 := by
      have h0 : ¬ (0 > maxDepth) := by decide
      simp [SanitizeFilter.Filter, SanitizeFilter.filterMap, h0] at hout
      exact hout.symm
    have := filterEntries_depth_le f m 0
    rw [hfe]
    omega
  · cases v <;> simp [SanitizeFilter.filterValue, hd]

/-- Witness for C8 at a concrete input and cutoff depth 11. -/
theorem sanitize_depth_bounded_witness :
    objDepth .nil ≤ maxDepth + 1 ∧
    (NewSanitizeFilter []).filterValue .vnull 11 = .vstr "[MAX DEPTH EXCEEDED]" :=
  sanitize_depth_bounded (NewSanitizeFilter []) .nil .nil .vnull 11
    (by simp [SanitizeFilter.Filter, SanitizeFilter.filterMap,
      SanitizeFilter.filterEntries, maxDepth])
    (by decide)

/-- Counterexample for C8 as stated: on a chain of maps nested past the max
depth, the cutoff sentinel that appears in the output is the string
"[MAX DEPTH EXCEEDED]"; the single-entry map with key "_truncated" appears
nowhere (that branch of `filterMap` is unreachable through `Filter`). -/
theorem sanitize_depth_sentinel_string_cex :
    occursInObj (.vstr "[MAX DEPTH EXCEEDED]")
      ((NewSanitizeFilter []).filterMap (.cons "k" (nestObj 10) .nil) 0) = true ∧
    occursInObj (.vobj (.cons "_truncated" (.vstr "[MAX DEPTH EXCEEDED]") .nil))
      ((NewSanitizeFilter []).filterMap (.cons "k" (nestObj 10) .nil) 0) = false := by
  have hsf : ∀ k : String, (NewSanitizeFilter []).shouldFilter k = false := by
    intro k; simp [NewSanitizeFilter, SanitizeFilter.shouldFilter]
  constructor <;>
    (norm_num [SanitizeFilter.filterMap, SanitizeFilter.filterEntries,
      SanitizeFilter.filterValue, hsf, maxDepth, nestObj,
      occursInObj, occursIn, occursInList]
     try simp)


theorem matchHere_starDot_last (s : List Char) : matchHere [.starDot] s = true := by
  have hs : s ∈ s.tails := (List.mem_tails s s).mpr (List.suffix_refl s)
  unfold matchHere
  exact List.any_eq_true.mpr ⟨s, hs, rfl⟩

theorem matchHere_lits_starDot (w : List Char) : ∀ s, w.isPrefixOf s = true →
    matchHere (w.map RTok.lit ++ [RTok.starDot]) s = true := by
  induction w with
  | nil => intro s _; exact matchHere_starDot_last s
  | cons c w' ih =>
    intro s h
    cases s with
    | nil => simp [List.isPrefixOf] at h
    | cons x xs =>
      simp [List.isPrefixOf] at h
      simpa [matchHere, h.1] using ih xs (List.isPrefixOf_iff_prefix.mpr h.2)

theorem matchHere_starDot_cons (ts : List RTok) (s : List Char)
    (h : matchHere ts s = true) : matchHere (.starDot :: ts) s = true := by
  have hs : s ∈ s.tails := (List.mem_tails s s).mpr (List.suffix_refl s)
  unfold matchHere
  exact List.any_eq_true.mpr ⟨s, hs, h⟩

theorem goRegexMatch_of_suffix {pattern s : String} {s' : List Char}
    (hsuf : s' <:+ s.toList) (h : matchHere (parseRegex pattern.toList) s' = true) :
    goRegexMatch pattern s = true := by
  unfold goRegexMatch
  exact List.any_eq_true.mpr ⟨s', (List.mem_tails _ _).mpr hsuf, h⟩

theorem timeout_regex_matches (name : String)
    (h : goContains name "timeout" = true) :
    goRegexMatch ".*timeout.*" name = true := by
  unfold goContains at h
  obtain ⟨s', hmem, hpre⟩ := List.any_eq_true.mp h
  have hsuf : s' <:+ name.toList := (List.mem_tails _ _).mp hmem
  have hparse : parseRegex ".*timeout.*".toList =
      .starDot :: ("timeout".toList.map RTok.lit ++ [.starDot]) := by decide
  apply goRegexMatch_of_suffix hsuf
  rw [hparse]
  exact matchHere_starDot_cons _ _ (matchHere_lits_starDot _ _ hpre)

/-- C2 (amended): with the string pattern ".*timeout.*", `ShouldIgnore`
returns true for every error whose class name contains the lowercase
substring "timeout" (the regex is case-sensitive, so a class name that only
contains "Timeout" is not matched — see the counterexample); it returns
false for the plain built-in error type errors.errorString; and it returns
true for a nil error regardless of the configured patterns. -/
theorem ignore_timeout_pattern_spec (assignableTo : GoType → GoType → Bool) :
    (∀ t : GoType, goContains (goTrimStar t.name) "timeout" = true →
      IgnoreFilter.ShouldIgnore assignableTo [.str ".*timeout.*"] (some t) = true) ∧
    IgnoreFilter.ShouldIgnore assignableTo [.str ".*timeout.*"]
      (some ⟨"*errors.errorString"⟩) = false ∧
    IgnoreFilter.ShouldIgnore assignableTo [.str ".*timeout.*"] none = true := by
  refine ⟨?_, ?_, rfl⟩
  · intro t h
    simp [IgnoreFilter.ShouldIgnore, IgnoreFilter.matchesString, timeout_regex_matches _ h]
  · have hred : IgnoreFilter.ShouldIgnore assignableTo [.str ".*timeout.*"]
        (some ⟨"*errors.errorString"⟩) =
        IgnoreFilter.matchesString (goTrimStar "*errors.errorString") ".*timeout.*" := by
      simp [IgnoreFilter.ShouldIgnore]
    rw [hred]
    decide

/-- Witness for C2 at a concrete class name containing lowercase "timeout". -/
theorem ignore_timeout_pattern_spec_witness :
    goContains (goTrimStar "*pkg.timeoutError") "timeout" = true ∧
    IgnoreFilter.ShouldIgnore (fun _ _ => false) [.str ".*timeout.*"]
      (some ⟨"*pkg.timeoutError"⟩) = true :=
  ⟨by decide, (ignore_timeout_pattern_spec (fun _ _ => false)).1
    ⟨"*pkg.timeoutError"⟩ (by decide)⟩

/-- Counterexample for C2 as stated: the class name "net.TimeoutError"
contains "Timeout", yet the pattern ".*timeout.*" does not ignore it —
Go regexp matching is case-sensitive. -/
theorem ignore_timeout_pattern_case_cex :
    goContains (goTrimStar "*net.TimeoutError") "Timeout" = true ∧
    IgnoreFilter.ShouldIgnore (fun _ _ => false) [.str ".*timeout.*"]
      (some ⟨"*net.TimeoutError"⟩) = false := by
  decide

/-- C10: `ShouldIgnore` with a string pattern treats a bare (undotted) suffix
of the class name as a match, on top of the exact, dotted-suffix and regex
branches: whenever the class name merely ends with the pattern, the error is
ignored. -/
theorem ignore_bare_suffix_matches (assignableTo : GoType → GoType → Bool)
    (t : GoType) (pattern : String)
    (h : goHasSuffix (goTrimStar t.name) pattern = true) :
    IgnoreFilter.ShouldIgnore assignableTo [.str pattern] (some t) = true := by
  simp [IgnoreFilter.ShouldIgnore, IgnoreFilter.matchesString, h]

/-- Witness for C10: pattern "Error" matched as bare suffix of
"pkg.FooError" (neither an exact match nor a dotted suffix). -/
theorem ignore_bare_suffix_matches_witness :
    ("pkg.FooError" == "Error") = false ∧
    goHasSuffix "pkg.FooError" ".Error" = false ∧
    IgnoreFilter.ShouldIgnore (fun _ _ => false) [.str "Error"]
      (some ⟨"*pkg.FooError"⟩) = true :=
  ⟨by decide, by decide,
    ignore_bare_suffix_matches (fun _ _ => false) ⟨"*pkg.FooError"⟩ "Error" (by decide)⟩


theorem append_nil (a : ObjList) : a.append .nil = a := by
  cases a with
  | nil => rfl
  | cons k v rest => simp [ObjList.append, append_nil rest]

theorem append_assoc (a b c : ObjList) :
    (a.append b).append c = a.append (b.append c) := by
  cases a with
  | nil => rfl
  | cons k v rest => simp [ObjList.append, append_assoc rest b c]

theorem lookup_append (a b : ObjList) (k : String) :
    (a.append b).lookup k = match a.lookup k with
      | some v => some v
      | none => b.lookup k := by
  cases a with
  | nil => simp [ObjList.append, ObjList.lookup]
  | cons k' v rest =>
    by_cases he : k' = k <;>
      simp [ObjList.append, ObjList.lookup, he, lookup_append rest b k]

theorem lookup_eq_none_iff (m : ObjList) (k : String) :
    m.lookup k = none ↔ k ∉ m.keys := by
  cases m with
  | nil => simp [ObjList.lookup, ObjList.keys]
  | cons k' v rest =>
    by_cases he : k' = k
    · subst he; simp [ObjList.lookup, ObjList.keys]
    · simp [ObjList.lookup, ObjList.keys, he, lookup_eq_none_iff rest k, Ne.symm he]

theorem set_fresh (m : ObjList) (k : String) (v : Value) (h : m.lookup k = none) :
    m.set k v = m.append (.cons k v .nil) := by
  cases m with
  | nil => rfl
  | cons k' v' rest =>
    have he : ¬ k' = k := by
      intro hc; subst hc; simp [ObjList.lookup] at h
    have hrest : rest.lookup k = none := by
      simpa [ObjList.lookup, he] using h
    simp [ObjList.set, ObjList.append, he, set_fresh rest k v hrest]

theorem mergeGo_fresh (c : ObjList) (acc : ObjList)
    (hfresh : ∀ k, k ∈ c.keys → acc.lookup k = none) (hnd : c.keys.Nodup) :
    mergeContext.go acc c = acc.append c := by
  cases c with
  | nil => exact (append_nil acc).symm
  | cons k v rest =>
    have hk : acc.lookup k = none := hfresh k (by simp [ObjList.keys])
    have hset : acc.set k v = acc.append (.cons k v .nil) := set_fresh acc k v hk
    have hnd' : rest.keys.Nodup := by
      simpa [ObjList.keys, List.nodup_cons] using hnd.of_cons
    have hkmem : k ∉ rest.keys := by
      have := hnd
      simp [ObjList.keys, List.nodup_cons] at this
      exact this.1
    have hfresh' : ∀ k', k' ∈ rest.keys → (acc.append (.cons k v .nil)).lookup k' = none := by
      intro k' hk'
      rw [lookup_append]
      have h1 : acc.lookup k' = none := hfresh k' (by simp [ObjList.keys, hk'])
      have h2 : (ObjList.cons k v .nil).lookup k' = none := by
        have : ¬ k = k' := fun hc => hkmem (hc ▸ hk')
        simp [ObjList.lookup, this]
      rw [h1, h2]
    calc mergeContext.go acc (.cons k v rest)
        = mergeContext.go (acc.set k v) rest := by simp [mergeContext.go]
      _ = (acc.append (.cons k v .nil)).append rest := by
          rw [hset, mergeGo_fresh rest _ hfresh' hnd']
      _ = acc.append (.cons k v rest) := by
          rw [append_assoc]
          rfl

theorem mergeContext_fresh (env : String) (c : ObjList)
    (hnd : c.keys.Nodup) (hfree : c.lookup "environment" = none) :
    mergeContext env c = .cons "environment" (.vstr env) c := by
  have hmem : "environment" ∉ c.keys := (lookup_eq_none_iff c "environment").mp hfree
  have hfresh : ∀ k, k ∈ c.keys →
      (ObjList.cons "environment" (.vstr env) .nil).lookup k = none := by
    intro k hk
    have : ¬ ("environment" = k) := fun hc => hmem (hc ▸ hk)
    simp [ObjList.lookup, this]
  unfold mergeContext
  rw [show (ObjList.set .nil "environment" (.vstr env))
      = ObjList.cons "environment" (.vstr env) .nil from rfl]
  rw [mergeGo_fresh c _ hfresh hnd]
  rfl

theorem toPayload_retract (n : Notice) (hnd : n.context.keys.Nodup)
    (hfree : n.context.lookup "environment" = none) :
    fromPayload n.ToPayload = n.truncSec := by
  have hctx := mergeContext_fresh n.environment n.context hnd hfree
  obtain ⟨ec, msg, bt, fp, tg, cx, rq, us, env, oc, nt, an, rv, hn⟩ := n
  simp only [Notice.ToPayload] at *
  rw [hctx]
  cases rq <;> cases us <;>
    by_cases ha : an = "" <;> by_cases hr : rv = "" <;> by_cases hh : hn = "" <;>
      simp [fromPayload, Notice.truncSec, ObjList.eraseKey, ObjList.lookup, ha, hr, hh]

/-- C3 (amended): for notices whose context map does not itself bind the
reserved key "environment" (and has unique keys, as Go maps do), `ToPayload`
is deterministic and lossless up to the sub-second part of the timestamp,
which the RFC3339 rendering drops: two such notices with equal payloads
agree on every field except possibly the nanosecond remainder of the
occurrence time (nil/empty user and request maps are the claim's omission
exception and are identified); and the notice's environment name appears in
the payload's context under "environment".  (Without the reservation the
context entry overwrites the environment name, and notices differing only in
the nanosecond remainder always collide; see the counterexample.) -/
theorem toPayload_lossless_env_reserved (n₁ n₂ : Notice)
    (hnd₁ : n₁.context.keys.Nodup) (hfree₁ : n₁.context.lookup "environment" = none)
    (hnd₂ : n₂.context.keys.Nodup) (hfree₂ : n₂.context.lookup "environment" = none) :
    (n₁.ToPayload = n₂.ToPayload → n₁.truncSec = n₂.truncSec) ∧
    n₁.ToPayload.context.lookup "environment" = some (.vstr n₁.environment) := by
  constructor
  · intro h
    have hr := congrArg fromPayload h
    rwa [toPayload_retract n₁ hnd₁ hfree₁, toPayload_retract n₂ hnd₂ hfree₂] at hr
  · have hctx := mergeContext_fresh n₁.environment n₁.context hnd₁ hfree₁
    simp [Notice.ToPayload, hctx, ObjList.lookup]

/-- Witness for C3 at a concrete notice. -/
theorem toPayload_lossless_env_reserved_witness :
    sampleNotice.ToPayload.context.lookup "environment"
      = some (.vstr "production") :=
  (toPayload_lossless_env_reserved sampleNotice sampleNotice
    (by decide) (by decide) (by decide) (by decide)).2

/-- Counterexample for C3 as stated, on both defects of the claim.
First: when the notice's context map itself binds "environment", that entry
overwrites the environment name, two notices differing only in environment
produce the same payload, and the environment name does not appear in the
payload's context.  Second: the RFC3339 rendering keeps whole seconds only,
so two notices differing only in the nanosecond remainder of the timestamp —
with a context map free of "environment" — also produce the same payload;
the projection is not lossless as claimed. -/
theorem toPayload_environment_override_cex :
    (cexNoticeA.ToPayload = cexNoticeB.ToPayload ∧
      cexNoticeA ≠ cexNoticeB ∧
      cexNoticeA.ToPayload.context.lookup "environment"
        ≠ some (.vstr cexNoticeA.environment)) ∧
    (cexNoticeC.ToPayload = cexNoticeD.ToPayload ∧
      cexNoticeC ≠ cexNoticeD ∧
      cexNoticeC.context.lookup "environment" = none) := by
  refine ⟨⟨?_, ?_, ?_⟩, ⟨?_, ?_, ?_⟩⟩
  · simp [Notice.ToPayload, cexNoticeA, cexNoticeB, sampleNotice,
      mergeContext, mergeContext.go, ObjList.set]
  · intro h
    have := congrArg Notice.environment h
    simp [cexNoticeA, cexNoticeB, sampleNotice] at this
  · simp [Notice.ToPayload, cexNoticeA, cexNoticeB, sampleNotice,
      mergeContext, mergeContext.go, ObjList.set, ObjList.lookup]
  · simp [Notice.ToPayload, cexNoticeC, cexNoticeD, sampleNotice,
      mergeContext, mergeContext.go, ObjList.set]
  · intro h
    have := congrArg Notice.occurredAt h
    simp [cexNoticeC, cexNoticeD, sampleNotice] at this
  · simp [cexNoticeC, sampleNotice, ObjList.lookup]


/-- C4: per dequeued notice, `sendWithRetry` (called with `maxRetries = 3`)
performs at most 3 send attempts; the sleeps between consecutive attempts
are exactly 100ms times 2 to the attempt index, starting at attempt 0; a
non-nil response on any attempt stops further attempts and is the recorded
result; and when all 3 attempts fail the notice is abandoned with no result
and no error (the function merely returns). -/
theorem worker_sendWithRetry_policy (send : Nat → Option APIResponse) :
    (Worker.sendWithRetry send 3).attempts.length ≤ 3 ∧
    (Worker.sendWithRetry send 3).delays =
      (List.range ((Worker.sendWithRetry send 3).attempts.length - 1)).map
        (fun i => 2 ^ i * 100) ∧
    ((∀ j, j < 3 → send j = none) →
      (Worker.sendWithRetry send 3).result = none ∧
      (Worker.sendWithRetry send 3).attempts = [0, 1, 2]) ∧
    (∀ k, k < 3 → (∀ j, j < k → send j = none) → send k ≠ none →
      (Worker.sendWithRetry send 3).result = send k ∧
      (Worker.sendWithRetry send 3).attempts = List.range (k + 1)) := by
  rcases h0 : send 0 with _ | r0
  · rcases h1 : send 1 with _ | r1
    · rcases h2 : send 2 with _ | r2
      · refine ⟨?_, ?_, ?_, ?_⟩ <;>
          simp [Worker.sendWithRetry, retryAux, h0, h1, h2]
        · decide
        · intro k hk h hne
          interval_cases k <;> simp_all
      · refine ⟨?_, ?_, ?_, ?_⟩ <;>
          simp [Worker.sendWithRetry, retryAux, h0, h1, h2]
        · decide
        · exact ⟨2, by decide, by simp [h2]⟩
        · intro k hk h hne
          interval_cases k <;> (simp_all; try decide)
    · refine ⟨?_, ?_, ?_, ?_⟩ <;>
        simp [Worker.sendWithRetry, retryAux, h0, h1]
      · decide
      · exact ⟨1, by decide, by simp [h1]⟩
      · intro k hk h hne
        interval_cases k <;> (simp_all; try decide)
  · refine ⟨?_, ?_, ?_, ?_⟩ <;>
      simp [Worker.sendWithRetry, retryAux, h0]
    · exact ⟨0, by decide, by simp [h0]⟩
    · intro k hk h hne
      interval_cases k <;> (simp_all; try decide)

/-- Witness for C4: with every attempt failing, the result is empty and
exactly the three attempts 0, 1, 2 were made. -/
theorem worker_sendWithRetry_policy_witness :
    (Worker.sendWithRetry (fun _ => none) 3).result = none ∧
    (Worker.sendWithRetry (fun _ => none) 3).attempts = [0, 1, 2] :=
  (worker_sendWithRetry_policy (fun _ => none)).2.2.1 (fun _ _ => rfl)

theorem pushAll_append (w : WorkerState) (a b : List Notice) :
    pushAll w (a ++ b) =
      ((pushAll w a).1 ++ (pushAll (pushAll w a).2 b).1, (pushAll (pushAll w a).2 b).2) := by
  induction a generalizing w with
  | nil => simp [pushAll]
  | cons n rest ih => simp [pushAll, ih]

theorem pushAll_under_capacity (ns : List Notice) (w : WorkerState)
    (hr : w.running = true) (hc : w.queue.length + ns.length ≤ w.capacity) :
    (pushAll w ns).1 = List.replicate ns.length true ∧
    (pushAll w ns).2 = { w with queue := w.queue ++ ns } := by
  induction ns generalizing w with
  | nil => simp [pushAll]
  | cons n rest ih =>
    have hlt : w.queue.length < w.capacity := by simp at hc; omega
    have hpush : w.Push n = (true, { w with queue := w.queue ++ [n] }) := by
      simp [WorkerState.Push, hr, hlt]
    have ih' := ih { w with queue := w.queue ++ [n] } (by simp [hr]) (by simp; simp at hc; omega)
    simp [pushAll, hpush, ih'.1, ih'.2, List.replicate_succ]

/-- C5: on a running worker with capacity N, an empty queue and no
concurrent drain, a sequence of N+1 pushes returns true for the first N and
false for the last; and `Push` on a non-running worker returns false and
leaves the state (in particular the queue) unchanged.  `Push` is
non-blocking by construction of the model: it is a total function of the
observed state. -/
theorem worker_push_capacity_bound :
    (∀ (w : WorkerState) (ns : List Notice), w.running = true → w.queue = [] →
      ns.length = w.capacity + 1 →
      (pushAll w ns).1 = List.replicate w.capacity true ++ [false]) ∧
    (∀ (w : WorkerState) (n : Notice), w.running = false → w.Push n = (false, w)) := by
  constructor
  · intro w ns hr hq hlen
    have hne : ns ≠ [] := by intro h; rw [h] at hlen; simp at hlen
    have hsplit : ns.dropLast ++ [ns.getLast hne] = ns := List.dropLast_append_getLast hne
    have hdlen : ns.dropLast.length = w.capacity := by
      rw [List.length_dropLast, hlen]; rfl
    have hmain := pushAll_under_capacity ns.dropLast w hr (by rw [hq, hdlen]; simp)
    have hstate : (pushAll w ns.dropLast).2 =
        { w with queue := ns.dropLast } := by rw [hmain.2, hq]; rfl
    have hfull : ({ w with queue := ns.dropLast } : WorkerState).Push (ns.getLast hne) =
        (false, { w with queue := ns.dropLast }) := by
      simp [WorkerState.Push, hr, hdlen]
    calc (pushAll w ns).1
        = (pushAll w (ns.dropLast ++ [ns.getLast hne])).1 := by rw [hsplit]
      _ = (pushAll w ns.dropLast).1 ++
            (pushAll (pushAll w ns.dropLast).2 [ns.getLast hne]).1 := by
            rw [pushAll_append]
      _ = List.replicate w.capacity true ++ [false] := by
            rw [hmain.1, hdlen, hstate]
            simp [pushAll, hfull]
  · intro w n hr
    simp [WorkerState.Push, hr]

/-- Witness for C5: capacity 2, three pushes — true, true, false; and a
push on a stopped worker is refused with the state unchanged. -/
theorem worker_push_capacity_bound_witness :
    (pushAll ⟨true, 2, []⟩ [sampleNotice, sampleNotice, sampleNotice]).1
      = List.replicate 2 true ++ [false] ∧
    WorkerState.Push ⟨false, 2, []⟩ sampleNotice = (false, ⟨false, 2, []⟩) :=
  ⟨worker_push_capacity_bound.1 ⟨true, 2, []⟩ [sampleNotice, sampleNotice, sampleNotice]
      rfl rfl rfl,
    worker_push_capacity_bound.2 ⟨false, 2, []⟩ sampleNotice rfl⟩


/-- C6: `Client.Send` returns a structured response exactly when the API key
is configured, serialization and request construction succeed, the HTTP
exchange returns status 201 with a readable body, and that body parses into
an `APIResponse`; every other outcome — missing key, marshal failure,
request-construction failure, network failure, unreadable body, non-201
status, or a parse failure on a 201 body — yields `none`, so failure causes
are not distinguishable in the return value (only in logging, which the
return value does not carry). -/
theorem client_send_success_iff (apiKey : String) (w : SendWorld) (r : APIResponse) :
    Client.Send apiKey w = some r ↔
      (apiKey ≠ "" ∧ (∃ d, w.marshalResult = some d) ∧ w.newRequestOk = true ∧
        ∃ body, w.httpResult = some (201, some body) ∧ w.parseResponse body = some r) := by
  unfold Client.Send
  by_cases hk : apiKey = ""
  · simp [hk]
  · rcases hm : w.marshalResult with _ | d
    · simp [hk, hm]
    · rcases hn : w.newRequestOk
      · simp [hk, hm, hn]
      · rcases hh : w.httpResult with _ | ⟨status, bodyRead⟩
        · simp [hk, hm, hn, hh]
        · rcases bodyRead with _ | body
          · simp [hk, hm, hn, hh]
          · by_cases hs : status = 201
            · subst hs
              simp [hk, hm, hn, hh]
            · simp [hk, hm, hn, hh, hs]

/-- Witness for C6: a successful 201 exchange with a parsable body returns
the parsed response. -/
theorem client_send_success_iff_witness :
    Client.Send "key" ⟨some "{}", true, some (201, some "body"),
      fun _ => some ⟨1, 2⟩⟩ = some ⟨1, 2⟩ :=
  (client_send_success_iff "key"
    ⟨some "{}", true, some (201, some "body"), fun _ => some ⟨1, 2⟩⟩ ⟨1, 2⟩).mpr
    ⟨by decide, ⟨"{}", rfl⟩, rfl, ⟨"body", rfl, rfl⟩⟩

/-- C9: with the SendEnvironment flag enabled and a nil context map,
the context-assembly step of `NoticeBuilder.Build` faults instead of
producing a notice: `Filter` maps the nil map to the nil map, and the
subsequent write of the environment snapshot into that nil map is the Go
runtime panic "assignment to entry in nil map". -/
theorem build_nil_context_env_snapshot_faults (f : SanitizeFilter) (envSnapshot : Value) :
    f.Filter none = none ∧
    buildSanitizedContext f true none envSnapshot
      = .error "assignment to entry in nil map" := by
  constructor <;> rfl

end Checkend
